import Mathlib

/-!
Shallow embedding of the FEiN finance API core (`src/app/main.py`,
`src/app/models.py`, `src/app/auth.py`).

The five relational tables are lists of records; every endpoint body is
translated into a pure function over a `DB` value.  SQLAlchemy queries
become list joins/filters, `db.commit()` points determine which rows
survive an aborted request (uncommitted pending adds are discarded when
the session closes), and `HTTPException`s become members of the `Err`
type.  Monetary columns (`Numeric(10,2)`) are modelled as exact
rationals; calendar datetimes are modelled as minute ordinals via
`dateKey`.
-/

namespace FEiN

/-- Row of the `user` table (`models.py`, class `User`). -/
structure UserRow where
  user_id : Nat
  user_name : String
  email : String
deriving DecidableEq, Repr

/-- Row of the `transaction_account` table (`models.py`, class `TransactionAccount`). -/
structure Account where
  transaction_account_id : Nat
  account_name : String
  balance : ℚ
  user_id : Nat
deriving DecidableEq, Repr

/-- Row of the `transaction` table (`models.py`, class `Transaction`).
`date` is a minute ordinal (see `dateKey`). -/
structure Txn where
  transaction_id : Nat
  transaction_name : String
  amount : ℚ
  net_amount : ℚ
  date : Nat
deriving DecidableEq, Repr

/-- Row of the `transaction_breakdown` table (`models.py`, class `TransactionBreakdown`). -/
structure Breakdown where
  transaction_breakdown_id : Nat
  transaction_id : Nat
  transaction_account_id : Nat
  spent_amount : ℚ
  earned_amount : ℚ
deriving DecidableEq, Repr

/-- Row of the `tag` table (`models.py`, class `Tag`). -/
structure TagRow where
  tag_id : Nat
  tag_name : String
deriving DecidableEq, Repr

/-- Row of the `tag_assigned_to_transaction` table
(`models.py`, class `TagAssignedToTransaction`). -/
structure TagAssignment where
  tag_assigned_to_transaction_id : Nat
  transaction_id : Nat
  tag_id : Nat
deriving DecidableEq, Repr

/-- The relational store: the five entity tables plus `user`. -/
structure DB where
  users : List UserRow
  accounts : List Account
  transactions : List Txn
  breakdowns : List Breakdown
  tags : List TagRow
  assignments : List TagAssignment
deriving DecidableEq, Repr

/-- The typed failures raised by the endpoint bodies (HTTP 403/404/400/500
details in `main.py`), in the vocabulary of the spec's error taxonomy. -/
inductive Err where
  | AccessDenied
  | NotFound
  | AlreadyAssigned
  | NoAccountAvailable
  | ValidationFailure
  | ReportFailure
deriving DecidableEq, Repr

/-- `auth.py`, `is_admin`: membership in the admin email allow-list. -/
def is_admin (email : String) : Bool :=
  ["admin@fein.com"].contains email

/-- Next auto-increment value for a list of primary keys. -/
def nextId (ids : List Nat) : Nat :=
  ids.foldr (fun i m => max i m) 0 + 1

/-- SQL `LIKE` matching over character lists: `%` matches any sequence
(equivalently some suffix split), `_` matches exactly one character,
anything else matches itself.  Structural on the pattern. -/
def suffixesOf : List Char → List (List Char)
  | [] => [[]]
  | c :: cs => (c :: cs) :: suffixesOf cs

def likeChars : List Char → List Char → Bool
  | [], s => s.isEmpty
  | '%' :: ps, s => (suffixesOf s).any (fun s2 => likeChars ps s2)
  | '_' :: ps, s =>
    match s with
    | [] => false
    | _ :: cs => likeChars ps cs
  | p :: ps, s =>
    match s with
    | [] => false
    | c :: cs => p == c && likeChars ps cs

/-- SQL `LIKE` on strings. -/
def likeMatch (pattern s : String) : Bool :=
  likeChars pattern.data s.data

/-- The reserved tag-placeholder naming pattern used in
`main.py` (`"Tag_%_placeholder"`). -/
def placeholderPattern : String := "Tag_%_placeholder"

/-- The ownership test every endpoint performs on a transaction account:
`TransactionAccount.transaction_account_id == aid AND
 TransactionAccount.user_id == uid` has a match. -/
def accountOwned (db : DB) (uid aid : Nat) : Bool :=
  db.accounts.any (fun a => a.transaction_account_id == aid && a.user_id == uid)

/-- Breakdown item of `TransactionCreateRequest.breakdowns`
(`main.py`, `TransactionBreakdownResponse` used as input shape). -/
structure BreakdownInput where
  transaction_account_id : Nat
  earned_amount : ℚ
  spent_amount : ℚ
deriving DecidableEq, Repr

/-- `main.py`, `TransactionCreateRequest`. -/
structure TransactionCreateRequest where
  transaction_name : String
  amount : ℚ
  date : Option Nat
  tag_id : Option Nat
  target_account_id : Nat
  breakdowns : Option (List BreakdownInput)
deriving DecidableEq, Repr

/-- The breakdown loop of `create_transaction` (`main.py` lines 281-304):
checks every breakdown's account ownership against the CALLER's
`user_id` (no admin branch), builds the rows and accumulates
`earned - spent`.  Returns `none` when some account is not owned. -/
def processBreakdowns (db : DB) (uid txnId : Nat) :
    Nat → List BreakdownInput → Option (List Breakdown × ℚ)
  | _, [] => some ([], 0)
  | fid, b :: rest =>
    if accountOwned db uid b.transaction_account_id then
      match processBreakdowns db uid txnId (fid + 1) rest with
      | some (rows, net) =>
        some ({ transaction_breakdown_id := fid
                transaction_id := txnId
                transaction_account_id := b.transaction_account_id
                spent_amount := b.spent_amount
                earned_amount := b.earned_amount } :: rows,
              (b.earned_amount - b.spent_amount) + net)
      | none => none
    else none

/-- The transaction row `create_transaction` commits before processing
the tag and the breakdowns: `net_amount` 0, `date` defaulted to now. -/
def initialTxn (req : TransactionCreateRequest) (now : Nat) (db : DB) : Txn :=
  { transaction_id := nextId (db.transactions.map (·.transaction_id))
    transaction_name := req.transaction_name
    amount := req.amount
    net_amount := 0
    date := req.date.getD now }

/-- The store right after the first `db.commit()` of `create_transaction`. -/
def dbAfterTxnCommit (req : TransactionCreateRequest) (now : Nat) (db : DB) : DB :=
  { db with transactions := db.transactions ++ [initialTxn req now db] }

/-- The tag assignment `create_transaction` adds (uncommitted) when a
truthy `tag_id` resolves to an existing tag. -/
def pendingTagAssign (req : TransactionCreateRequest) (now : Nat) (db : DB) :
    List TagAssignment :=
  match req.tag_id with
  | some tid =>
    if tid != 0 && db.tags.any (fun g => g.tag_id == tid) then
      [{ tag_assigned_to_transaction_id :=
           nextId (db.assignments.map (·.tag_assigned_to_transaction_id))
         transaction_id := (initialTxn req now db).transaction_id
         tag_id := tid }]
    else []
  | none => []

/-- `main.py`, `create_transaction`.  The transaction row is committed
before the tag assignment and breakdown loop run; on a breakdown
`AccessDenied` the uncommitted pending rows are discarded when the
session closes, so the error state keeps only the committed transaction
row (with `net_amount` still 0). -/
def create_transaction (user : UserRow) (req : TransactionCreateRequest)
    (now : Nat) (db : DB) : Except Err Txn × DB :=
  if !is_admin user.email && !accountOwned db user.user_id req.target_account_id then
    (.error .AccessDenied, db)
  else
    match processBreakdowns (dbAfterTxnCommit req now db) user.user_id
        (initialTxn req now db).transaction_id
        (nextId ((dbAfterTxnCommit req now db).breakdowns.map (·.transaction_breakdown_id)))
        (req.breakdowns.getD []) with
    | none => (.error .AccessDenied, dbAfterTxnCommit req now db)
    | some (rows, net) =>
      (.ok { initialTxn req now db with net_amount := net },
       { dbAfterTxnCommit req now db with
           transactions := db.transactions ++ [{ initialTxn req now db with net_amount := net }]
           breakdowns := (dbAfterTxnCommit req now db).breakdowns ++ rows
           assignments := (dbAfterTxnCommit req now db).assignments ++ pendingTagAssign req now db })

/-- `main.py`, `get_transactions`: admins see every non-placeholder
transaction; regular users see one row per
`Transaction ⋈ TransactionBreakdown ⋈ TransactionAccount` match on one
of their accounts (no dedup), placeholders excluded. -/
def get_transactions (user : UserRow) (db : DB) : List Txn :=
  if is_admin user.email then
    db.transactions.filter (fun t => !likeMatch placeholderPattern t.transaction_name)
  else
    (db.transactions.filter
        (fun t => !likeMatch placeholderPattern t.transaction_name)).flatMap
      (fun t =>
        (db.breakdowns.filter (fun b => b.transaction_id == t.transaction_id)).flatMap
          (fun b =>
            (db.accounts.filter (fun a =>
                a.transaction_account_id == b.transaction_account_id &&
                a.user_id == user.user_id)).map (fun _ => t)))

/-- `main.py`, `get_transaction_breakdowns`: joins breakdowns of the
transaction with accounts owned by the CALLER (no admin branch), and
raises 404 when the result set is empty. -/
def get_transaction_breakdowns (user : UserRow) (transaction_id : Nat) (db : DB) :
    Except Err (List Breakdown) :=
  if (db.breakdowns.filter (fun b =>
        b.transaction_id == transaction_id &&
        db.accounts.any (fun a =>
          a.transaction_account_id == b.transaction_account_id &&
          a.user_id == user.user_id))).isEmpty then
    .error .NotFound
  else
    .ok (db.breakdowns.filter (fun b =>
      b.transaction_id == transaction_id &&
      db.accounts.any (fun a =>
        a.transaction_account_id == b.transaction_account_id &&
        a.user_id == user.user_id)))

/-- The tag row `create_tag` commits first. -/
def newTag (tag_name : String) (db : DB) : TagRow :=
  { tag_id := nextId (db.tags.map (·.tag_id)), tag_name := tag_name }

/-- The store right after the first `db.commit()` of `create_tag`. -/
def dbAfterTagCommit (tag_name : String) (db : DB) : DB :=
  { db with tags := db.tags ++ [newTag tag_name db] }

/-- The synthetic placeholder transaction `create_tag` commits, named
with the reserved pattern `Tag_<id>_placeholder`. -/
def placeholderTxn (tag_name : String) (now : Nat) (db : DB) : Txn :=
  { transaction_id :=
      nextId ((dbAfterTagCommit tag_name db).transactions.map (·.transaction_id))
    transaction_name := "Tag_" ++ toString (newTag tag_name db).tag_id ++ "_placeholder"
    amount := 0
    net_amount := 0
    date := now }

/-- `main.py`, `create_tag`: commits the tag row, then looks up the
caller's first account (403 `NoAccountAvailable` when none, leaving the
committed tag behind), then commits the placeholder transaction, its
zero-value breakdown and the tag assignment. -/
def create_tag (user : UserRow) (tag_name : String) (now : Nat) (db : DB) :
    Except Err TagRow × DB :=
  match db.accounts.find? (fun a => a.user_id == user.user_id) with
  | none => (.error .NoAccountAvailable, dbAfterTagCommit tag_name db)
  | some acct =>
    (.ok (newTag tag_name db),
     { dbAfterTagCommit tag_name db with
         transactions := (dbAfterTagCommit tag_name db).transactions ++
           [placeholderTxn tag_name now db]
         breakdowns := db.breakdowns ++
           [{ transaction_breakdown_id := nextId (db.breakdowns.map (·.transaction_breakdown_id))
              transaction_id := (placeholderTxn tag_name now db).transaction_id
              transaction_account_id := acct.transaction_account_id
              spent_amount := 0
              earned_amount := 0 }]
         assignments := db.assignments ++
           [{ tag_assigned_to_transaction_id :=
                nextId (db.assignments.map (·.tag_assigned_to_transaction_id))
              transaction_id := (placeholderTxn tag_name now db).transaction_id
              tag_id := (newTag tag_name db).tag_id }] })

/-- `main.py`, `get_tags`: admins see every tag; regular users see the
distinct tags reachable through an assignment to a transaction with a
breakdown on one of their accounts. -/
def get_tags (user : UserRow) (db : DB) : List TagRow :=
  if is_admin user.email then
    db.tags
  else
    (db.tags.flatMap (fun g =>
      (db.assignments.filter (fun x => x.tag_id == g.tag_id)).flatMap (fun x =>
        (db.transactions.filter (fun t => t.transaction_id == x.transaction_id)).flatMap
          (fun t =>
            (db.breakdowns.filter (fun b => b.transaction_id == t.transaction_id)).flatMap
              (fun b =>
                (db.accounts.filter (fun a =>
                    a.transaction_account_id == b.transaction_account_id &&
                    a.user_id == user.user_id)).map (fun _ => g)))))).dedup

/-- The caller owns the transaction: the
`Transaction ⋈ Breakdown ⋈ Account` join restricted to the caller's
`user_id` has a row for it (used by `assign_tag_to_transaction` and the
other per-transaction endpoints). -/
def transactionOwned (db : DB) (uid tid : Nat) : Bool :=
  db.transactions.any (fun t =>
    t.transaction_id == tid &&
    db.breakdowns.any (fun b =>
      b.transaction_id == t.transaction_id &&
      db.accounts.any (fun a =>
        a.transaction_account_id == b.transaction_account_id && a.user_id == uid)))

/-- The tag-accessibility outer-join test of `assign_tag_to_transaction`
(`main.py` lines 610-622): the tag row exists and some left-outer-joined
row has the caller's `user_id` or a NULL `user_id` (unassigned tag, or
an assignment chain that breaks before reaching an account). -/
def tagAccessible (db : DB) (uid tagId : Nat) : Bool :=
  db.tags.any (fun g => g.tag_id == tagId) &&
  (let asgs := db.assignments.filter (fun x => x.tag_id == tagId)
   asgs.isEmpty ||
   asgs.any (fun x =>
     !(db.transactions.any (fun t => t.transaction_id == x.transaction_id)) ||
     (let bs := db.breakdowns.filter (fun b => b.transaction_id == x.transaction_id)
      bs.isEmpty ||
      bs.any (fun b =>
        db.accounts.all (fun a => a.transaction_account_id != b.transaction_account_id) ||
        db.accounts.any (fun a =>
          a.transaction_account_id == b.transaction_account_id && a.user_id == uid)))))

/-- The assignment row `assign_tag_to_transaction` inserts. -/
def newAssignment (db : DB) (transaction_id tag_id : Nat) : TagAssignment :=
  { tag_assigned_to_transaction_id :=
      nextId (db.assignments.map (·.tag_assigned_to_transaction_id))
    transaction_id := transaction_id
    tag_id := tag_id }

/-- `main.py`, `assign_tag_to_transaction`: 404 when the transaction is
not owned by the caller, 404 when the tag is not accessible, 400
`AlreadyAssigned` when the pair already exists, otherwise inserts the
assignment row.  No write happens before the insert, so every error
leaves the store unchanged. -/
def assign_tag (user : UserRow) (transaction_id tag_id : Nat) (db : DB) :
    Except Err Unit × DB :=
  if !transactionOwned db user.user_id transaction_id then
    (.error .NotFound, db)
  else if !tagAccessible db user.user_id tag_id then
    (.error .NotFound, db)
  else if db.assignments.any (fun x =>
      x.transaction_id == transaction_id && x.tag_id == tag_id) then
    (.error .AlreadyAssigned, db)
  else
    (.ok (),
     { db with
         assignments := db.assignments ++ [newAssignment db transaction_id tag_id] })

/-- `main.py`, `get_total_spending`: admins sum `amount` over every
transaction with `amount > 0`; regular users sum over the
`Transaction ⋈ Breakdown ⋈ Account` rows on their accounts (one summand
per join row, no dedup). -/
def get_total_spending (user : UserRow) (db : DB) : ℚ :=
  if is_admin user.email then
    ((db.transactions.filter (fun t => decide (t.amount > 0))).map (·.amount)).sum
  else
    (((db.transactions.flatMap (fun t =>
          (db.breakdowns.filter (fun b => b.transaction_id == t.transaction_id)).flatMap
            (fun b =>
              (db.accounts.filter (fun a =>
                  a.transaction_account_id == b.transaction_account_id &&
                  a.user_id == user.user_id)).map (fun _ => t)))).filter
        (fun t => decide (t.amount > 0))).map (·.amount)).sum

def isDigitChar (c : Char) : Bool := decide ('0' ≤ c) && decide (c ≤ '9')

/-- Greedy digit-prefix scan, consuming at most `max` digits
(how `strptime` consumes `%Y`, `%m`, `%d`). -/
def takeDigits : Nat → List Char → List Char × List Char
  | 0, cs => ([], cs)
  | _ + 1, [] => ([], [])
  | n + 1, c :: cs =>
    if isDigitChar c then
      let (ds, r) := takeDigits n cs
      (c :: ds, r)
    else ([], c :: cs)

def digitsToNat (ds : List Char) : Nat :=
  ds.foldl (fun acc c => acc * 10 + (c.toNat - '0'.toNat)) 0

def isLeapYear (y : Nat) : Bool :=
  y % 4 == 0 && (y % 100 != 0 || y % 400 == 0)

def daysInMonth (y m : Nat) : Nat :=
  if m == 2 then (if isLeapYear y then 29 else 28)
  else if m == 4 || m == 6 || m == 9 || m == 11 then 30
  else 31

/-- `datetime.strptime(s, "%Y-%m-%d")`: up to four year digits, a `-`,
up to two month digits, a `-`, up to two day digits, nothing left over,
and the triple must be a valid proleptic-Gregorian calendar date. -/
def parseDateYMD (s : String) : Option (Nat × Nat × Nat) :=
  let (ys, r1) := takeDigits 4 s.data
  if ys.isEmpty then none
  else
    match r1 with
    | '-' :: r2 =>
      let (ms, r3) := takeDigits 2 r2
      if ms.isEmpty then none
      else
        match r3 with
        | '-' :: r4 =>
          let (ds, r5) := takeDigits 2 r4
          if ds.isEmpty || !r5.isEmpty then none
          else
            let y := digitsToNat ys
            let m := digitsToNat ms
            let d := digitsToNat ds
            if 1 ≤ y && y ≤ 9999 && 1 ≤ m && m ≤ 12 && 1 ≤ d && d ≤ daysInMonth y m then
              some (y, m, d)
            else none
        | _ => none
    | _ => none

/-- Minute ordinal of midnight of a calendar date: a strictly monotone
encoding of (year, month, day) into the timeline used by `Txn.date`. -/
def dateKey (ymd : Nat × Nat × Nat) : Nat :=
  ((ymd.1 * 13 + ymd.2.1) * 32 + ymd.2.2) * 1440

/-- `main.py`, `get_spending_by_date_range`: the two `strptime` calls
run inside the same `try` as the query, so an unparsable date is caught
by the blanket `except` and surfaces as the generic 500 report failure;
on success the scoped positive amounts within the inclusive range are
summed. -/
def get_spending_by_date_range (user : UserRow) (start_date end_date : String)
    (db : DB) : Except Err ℚ :=
  match parseDateYMD start_date, parseDateYMD end_date with
  | some sd, some ed =>
    let inRange : Txn → Bool := fun t =>
      decide (dateKey sd ≤ t.date) && decide (t.date ≤ dateKey ed)
    if is_admin user.email then
      .ok (((db.transactions.filter
              (fun t => inRange t && decide (t.amount > 0))).map (·.amount)).sum)
    else
      .ok ((((db.transactions.flatMap (fun t =>
                (db.breakdowns.filter (fun b => b.transaction_id == t.transaction_id)).flatMap
                  (fun b =>
                    (db.accounts.filter (fun a =>
                        a.transaction_account_id == b.transaction_account_id &&
                        a.user_id == user.user_id)).map (fun _ => t)))).filter
            (fun t => inRange t && decide (t.amount > 0))).map (·.amount)).sum)
  | _, _ => .error .ReportFailure

/-- A row of the `get_exceeding_transactions` subquery join
(`Breakdown ⋈ Account ⋈ User ⋈ Transaction`). -/
structure JoinedRow where
  b : Breakdown
  a : Account
  u : UserRow
  t : Txn
deriving DecidableEq, Repr

/-- The joined row set over which the window function of
`get_exceeding_transactions` is evaluated. -/
def windowRows (db : DB) : List JoinedRow :=
  db.breakdowns.flatMap (fun b =>
    (db.accounts.filter (fun a =>
        a.transaction_account_id == b.transaction_account_id)).flatMap (fun a =>
      (db.users.filter (fun u => u.user_id == a.user_id)).flatMap (fun u =>
        (db.transactions.filter (fun t =>
            t.transaction_id == b.transaction_id)).map (fun t =>
          { b := b, a := a, u := u, t := t }))))

/-- The window value
`sum(earned - spent) OVER (PARTITION BY transaction_account_id ORDER BY date)`:
with the default RANGE frame it sums every row of the partition whose
transaction date is `≤` the current row's date — the current row and its
date-peers included. -/
def calcBalance (db : DB) (acctId d : Nat) : ℚ :=
  (((windowRows db).filter (fun w =>
      w.b.transaction_account_id == acctId && decide (w.t.date ≤ d))).map
    (fun w => w.b.earned_amount - w.b.spent_amount)).sum

/-- Output row shape of `get_exceeding_transactions`. -/
structure ExceedRow where
  user_id : Nat
  user_name : String
  account_name : String
  transaction_id : Nat
  transaction_name : String
  transaction_amount : ℚ
  transaction_date : Nat
  calculated_balance : ℚ
deriving DecidableEq, Repr

/-- The subquery rows with their window balance. -/
def exceedJoinRows (db : DB) : List ExceedRow :=
  (windowRows db).map (fun w =>
    { user_id := w.u.user_id
      user_name := w.u.user_name
      account_name := w.a.account_name
      transaction_id := w.t.transaction_id
      transaction_name := w.t.transaction_name
      transaction_amount := w.b.spent_amount
      transaction_date := w.t.date
      calculated_balance := calcBalance db w.b.transaction_account_id w.t.date })

/-- Strict lexicographic order on character lists (SQL string collation). -/
def charListLt : List Char → List Char → Bool
  | [], [] => false
  | [], _ :: _ => true
  | _ :: _, [] => false
  | a :: as, b :: bs => if a = b then charListLt as bs else decide (a < b)

/-- The `ORDER BY user_id, account_name, transaction_date DESC` key of
`get_exceeding_transactions` as a total Boolean order. -/
def exceedLE (r1 r2 : ExceedRow) : Bool :=
  if r1.user_id = r2.user_id then
    if r1.account_name = r2.account_name then
      decide (r2.transaction_date ≤ r1.transaction_date)
    else charListLt r1.account_name.data r2.account_name.data
  else decide (r1.user_id < r2.user_id)

/-- `main.py`, `get_exceeding_transactions`: keep the join rows whose
`spent_amount` is positive and exceeds the window balance, apply the
optional exact account-name filter and the non-admin `user_id` filter,
and order by user, account name, date descending. -/
def get_exceeding_transactions (user : UserRow) (account_name : Option String)
    (db : DB) : List ExceedRow :=
  ((exceedJoinRows db).filter (fun r =>
      decide (r.transaction_amount > r.calculated_balance) &&
      decide (r.transaction_amount > 0) &&
      (match account_name with
       | some n => r.account_name == n
       | none => true) &&
      (is_admin user.email || r.user_id == user.user_id))).mergeSort exceedLE

/-! ### Concrete fixtures shared by witnesses and counterexamples -/

/-- A regular (non-allow-listed) user. -/
def alice : UserRow := ⟨1, "alice", "a@x.com"⟩

/-- A privileged user: the email is on the admin allow-list of `auth.py`. -/
def adminUser : UserRow := ⟨9, "root", "admin@fein.com"⟩

/-- The empty store. -/
def emptyDB : DB := ⟨[], [], [], [], [], []⟩

/-! ### C9: date-range report on malformed input -/

/-- An unparsable start or end date makes `get_spending_by_date_range`
fail with the generic `ReportFailure`: both `strptime` calls run inside
the blanket `try`/`except` that maps everything to the 500 response. -/
theorem spending_by_date_range_unparsable_report_failure
    (u : UserRow) (s e : String) (db : DB)
    (h : parseDateYMD s = none ∨ parseDateYMD e = none) :
    get_spending_by_date_range u s e db = .error .ReportFailure := by
  unfold get_spending_by_date_range
  rcases h with h | h
  · rw [h]
  · rw [h]; cases parseDateYMD s <;> rfl

/-- C9 counterexample: on the unparsable start date `"not-a-date"` the
endpoint returns the generic `ReportFailure` (the blanket 500), which is
a different error than the `ValidationFailure` the claim promises for
malformed input. -/
theorem spending_by_date_range_unparsable_counterexample :
    get_spending_by_date_range adminUser "not-a-date" "2024-01-01" emptyDB
        = .error .ReportFailure ∧
    Err.ReportFailure ≠ Err.ValidationFailure :=
  ⟨rfl, by decide⟩

/-- Witness for `spending_by_date_range_unparsable_report_failure` at a
concrete malformed input. -/
theorem spending_by_date_range_unparsable_witness :
    get_spending_by_date_range alice "2024-13-01" "2024-01-01" emptyDB
      = .error .ReportFailure :=
  spending_by_date_range_unparsable_report_failure alice "2024-13-01" "2024-01-01"
    emptyDB (Or.inl rfl)

/-! ### C2: net amount of a created transaction -/

/-- The breakdown loop of `create_transaction` accumulates exactly the
sum of `earned - spent` over the supplied breakdowns. -/
theorem processBreakdowns_net (db : DB) (uid txnId : Nat) :
    ∀ (bs : List BreakdownInput) (fid : Nat) (rows : List Breakdown) (net : ℚ),
      processBreakdowns db uid txnId fid bs = some (rows, net) →
      net = (bs.map (fun b => b.earned_amount - b.spent_amount)).sum := by
  intro bs
  induction bs with
  | nil =>
    intro fid rows net h
    simp only [processBreakdowns, Option.some.injEq, Prod.mk.injEq] at h
    simp [← h.2]
  | cons b rest ih =>
    intro fid rows net h
    unfold processBreakdowns at h
    split at h
    · cases hrec : processBreakdowns db uid txnId (fid + 1) rest with
      | none => rw [hrec] at h; simp at h
      | some pr =>
        obtain ⟨rows', net'⟩ := pr
        rw [hrec] at h
        simp only [Option.some.injEq, Prod.mk.injEq] at h
        have hnet' := ih (fid + 1) rows' net' hrec
        simp [← h.2, hnet']
    · simp at h

/-- C2: a successful `create_transaction` persists and returns a
transaction whose `net_amount` is the sum of `earned - spent` over the
supplied breakdowns, and 0 when no breakdowns were supplied. -/
theorem create_transaction_net_amount (u : UserRow) (req : TransactionCreateRequest)
    (now : Nat) (db : DB) (t : Txn)
    (h : (create_transaction u req now db).1 = .ok t) :
    t.net_amount =
      ((req.breakdowns.getD []).map (fun b => b.earned_amount - b.spent_amount)).sum ∧
    (req.breakdowns = none → t.net_amount = 0) ∧
    t ∈ (create_transaction u req now db).2.transactions := by
  unfold create_transaction at h ⊢
  split at h
  · simp at h
  · rename_i hgate
    rw [if_neg hgate]
    cases hp : processBreakdowns (dbAfterTxnCommit req now db) u.user_id
        (initialTxn req now db).transaction_id
        (nextId ((dbAfterTxnCommit req now db).breakdowns.map (·.transaction_breakdown_id)))
        (req.breakdowns.getD []) with
    | none => rw [hp] at h; simp at h
    | some pr =>
      obtain ⟨rows, net⟩ := pr
      rw [hp] at h
      simp only [hp]
      simp only [Except.ok.injEq] at h
      subst h
      refine ⟨?_, ?_, ?_⟩
      · exact processBreakdowns_net _ _ _ _ _ _ _ hp
      · intro hnone
        have hs := processBreakdowns_net _ _ _ _ _ _ _ hp
        rw [hnone] at hs
        simpa using hs
      · simp

/-- Store with one account owned by `alice`. -/
def dbAcct : DB :=
  { users := [alice, adminUser]
    accounts := [⟨1, "Cash", 0, 1⟩]
    transactions := []
    breakdowns := []
    tags := []
    assignments := [] }

/-- A create request with two breakdowns on alice's account:
`(earned 3, spent 10)` and `(earned 2, spent 1)`, so the net is `-6`. -/
def reqW : TransactionCreateRequest :=
  ⟨"Coffee", 5, none, none, 1, some [⟨1, 3, 10⟩, ⟨1, 2, 1⟩]⟩

/-- Witness for `create_transaction_net_amount` at a concrete call. -/
theorem create_transaction_net_amount_witness :
    (⟨1, "Coffee", 5, -6, 0⟩ : Txn).net_amount =
      ((reqW.breakdowns.getD []).map (fun b => b.earned_amount - b.spent_amount)).sum :=
  (create_transaction_net_amount alice reqW 0 dbAcct ⟨1, "Coffee", 5, -6, 0⟩
    (by norm_num [create_transaction, processBreakdowns, dbAfterTxnCommit, initialTxn,
          accountOwned, is_admin, nextId, alice, dbAcct, reqW])).1

/-! ### C7: duplicate tag assignment -/

/-- C7: if `assign_tag` succeeds for a pair, repeating the call fails
with `AlreadyAssigned`, leaves the store unchanged, and exactly one
assignment row for the pair exists. -/
theorem assign_tag_idempotent_rejecting (u : UserRow) (tx tg : Nat) (db db2 : DB)
    (h : assign_tag u tx tg db = (.ok (), db2)) :
    assign_tag u tx tg db2 = (.error .AlreadyAssigned, db2) ∧
    (db2.assignments.filter (fun x => x.transaction_id == tx && x.tag_id == tg)).length
      = 1 := by
  unfold assign_tag at h
  split at h
  · simp at h
  · split at h
    · simp at h
    · split at h
      · simp at h
      · rename_i hc1 hc2 hc3
        simp only [Bool.not_eq_true', Bool.not_eq_false] at hc1 hc2
        have hdb2 : db2 =
            { db with assignments := db.assignments ++ [newAssignment db tx tg] } := by
          have h2 := congrArg Prod.snd h
          exact h2.symm
        subst hdb2
        have hfilter0 :
            db.assignments.filter (fun x => x.transaction_id == tx && x.tag_id == tg)
              = [] := by
          refine List.filter_eq_nil_iff.mpr ?_
          intro x hx hpx
          exact hc3 (List.any_eq_true.mpr ⟨x, hx, hpx⟩)
        constructor
        · -- the repeated call
          obtain ⟨t, htmem, htp⟩ := List.any_eq_true.mp hc1
          simp only [Bool.and_eq_true, beq_iff_eq] at htp
          obtain ⟨htid, hbany⟩ := htp
          obtain ⟨b, hbmem, hbp⟩ := List.any_eq_true.mp hbany
          simp only [Bool.and_eq_true, beq_iff_eq] at hbp
          obtain ⟨hbid, haany⟩ := hbp
          -- tag accessibility survives: the fresh assignment links the tag
          -- to a transaction with a breakdown on the caller's account
          have htags : db.tags.any (fun g => g.tag_id == tg) = true := by
            have h2 := hc2
            unfold tagAccessible at h2
            simp only [Bool.and_eq_true] at h2
            exact h2.1
          have haccess : tagAccessible
              { db with assignments := db.assignments ++ [newAssignment db tx tg] }
              u.user_id tg = true := by
            unfold tagAccessible
            simp only [Bool.and_eq_true, Bool.or_eq_true]
            refine ⟨htags, Or.inr ?_⟩
            refine List.any_eq_true.mpr ⟨newAssignment db tx tg, ?_, ?_⟩
            · simp [newAssignment]
            · simp only [Bool.or_eq_true]
              refine Or.inr (Or.inr ?_)
              refine List.any_eq_true.mpr ⟨b, ?_, ?_⟩
              · simp only [List.mem_filter]
                refine ⟨hbmem, ?_⟩
                simp [newAssignment, hbid, htid]
              · simp only [Bool.or_eq_true]
                exact Or.inr haany
          have e1 : transactionOwned
              { db with assignments := db.assignments ++ [newAssignment db tx tg] }
              u.user_id tx = true := hc1
          have epair :
              (({ db with assignments := db.assignments ++ [newAssignment db tx tg] } :
                  DB).assignments.any
                (fun x => x.transaction_id == tx && x.tag_id == tg)) = true := by
            simp [newAssignment]
          unfold assign_tag
          rw [e1, haccess, epair]
          rfl
        · simp [newAssignment, List.filter_append, hfilter0]

/-- Store where alice owns transaction 1 (via a breakdown on her
account 1) and tag 1 exists unassigned. -/
def dbTagged : DB :=
  { users := [alice]
    accounts := [⟨1, "A", 0, 1⟩]
    transactions := [⟨1, "t1", 0, 0, 100⟩]
    breakdowns := [⟨1, 1, 1, 0, 0⟩]
    tags := [⟨1, "food"⟩]
    assignments := [] }

/-- Witness for `assign_tag_idempotent_rejecting` at a concrete pair. -/
theorem assign_tag_idempotent_rejecting_witness :
    assign_tag alice 1 1 (assign_tag alice 1 1 dbTagged).2
        = (.error .AlreadyAssigned, (assign_tag alice 1 1 dbTagged).2) ∧
    ((assign_tag alice 1 1 dbTagged).2.assignments.filter
        (fun x => x.transaction_id == 1 && x.tag_id == 1)).length = 1 :=
  assign_tag_idempotent_rejecting alice 1 1 dbTagged (assign_tag alice 1 1 dbTagged).2
    rfl

/-! ### C8: placeholder transactions are excluded from listings -/

/-- `rest` is one of the suffixes of `s ++ rest`. -/
theorem mem_suffixesOf_append (s rest : List Char) : rest ∈ suffixesOf (s ++ rest) := by
  induction s with
  | nil =>
    cases rest with
    | nil => simp [suffixesOf]
    | cons c cs => simp [suffixesOf]
  | cons c cs ih =>
    simp only [List.cons_append, suffixesOf]
    exact List.mem_cons_of_mem _ ih

/-- Character-level kernel of the placeholder-pattern match: after the
literal `Tag` and the one-character wildcard, `%` absorbs the infix and
the second `_` wildcard plus the literal `placeholder` close the match. -/
theorem likeChars_tag_placeholder (s : List Char) :
    likeChars ('T' :: 'a' :: 'g' :: '_' :: '%' :: '_' :: "placeholder".data)
      ('T' :: 'a' :: 'g' :: '_' :: (s ++ '_' :: "placeholder".data)) = true := by
  show likeChars ('%' :: '_' :: "placeholder".data) (s ++ '_' :: "placeholder".data) = true
  have hstep : ∀ s2 : List Char,
      likeChars ('%' :: '_' :: "placeholder".data) s2
        = (suffixesOf s2).any (fun s3 => likeChars ('_' :: "placeholder".data) s3) :=
    fun _ => rfl
  rw [hstep]
  refine List.any_eq_true.mpr ⟨'_' :: "placeholder".data, mem_suffixesOf_append s _, ?_⟩
  decide

/-- Every string of the form `Tag_<infix>_placeholder` matches the
reserved `LIKE` pattern `Tag_%_placeholder`. -/
theorem likeMatch_placeholder (s : String) :
    likeMatch placeholderPattern ("Tag_" ++ s ++ "_placeholder") = true := by
  have h : ("Tag_" ++ s ++ "_placeholder").data
      = 'T' :: 'a' :: 'g' :: '_' :: (s.data ++ '_' :: "placeholder".data) := by
    rw [String.data_append, String.data_append]
    show (['T', 'a', 'g', '_'] ++ s.data) ++ ('_' :: "placeholder".data) = _
    simp
  unfold likeMatch
  rw [h]
  exact likeChars_tag_placeholder s.data

/-- C8: a transaction named with the reserved `Tag_<n>_placeholder`
pattern never appears in `get_transactions` output, for any caller,
privileged or not; and a successful `create_tag` persists exactly such a
placeholder transaction. -/
theorem placeholder_never_in_get_transactions :
    (∀ (u : UserRow) (db : DB) (t : Txn) (n : Nat),
       t.transaction_name = "Tag_" ++ toString n ++ "_placeholder" →
       t ∉ get_transactions u db) ∧
    (∀ (u : UserRow) (name : String) (now : Nat) (db : DB) (g : TagRow),
       (create_tag u name now db).1 = .ok g →
       ∃ t ∈ (create_tag u name now db).2.transactions,
         t.transaction_name = "Tag_" ++ toString g.tag_id ++ "_placeholder") := by
  constructor
  · intro u db t n hname hmem
    have hlike : likeMatch placeholderPattern t.transaction_name = true := by
      rw [hname]; exact likeMatch_placeholder (toString n)
    unfold get_transactions at hmem
    split at hmem
    · have h2 := (List.mem_filter.mp hmem).2
      simp [hlike] at h2
    · obtain ⟨t2, ht2mem, hinner⟩ := List.mem_flatMap.mp hmem
      obtain ⟨b, hb, hinner2⟩ := List.mem_flatMap.mp hinner
      obtain ⟨a, ha, heq⟩ := List.mem_map.mp hinner2
      have h2 := (List.mem_filter.mp ht2mem).2
      rw [heq] at h2
      simp [hlike] at h2
  · intro u name now db g hok
    unfold create_tag at hok ⊢
    cases hfind : db.accounts.find? (fun a => a.user_id == u.user_id) with
    | none => rw [hfind] at hok; simp at hok
    | some acct =>
      rw [hfind] at hok
      simp only [Except.ok.injEq] at hok
      subst hok
      refine ⟨placeholderTxn name now db, by simp, rfl⟩

/-- Witness for `placeholder_never_in_get_transactions`: the placeholder
row committed by a concrete `create_tag` call is absent from the
privileged listing of the resulting store. -/
theorem placeholder_never_in_get_transactions_witness :
    (⟨1, "Tag_1_placeholder", 0, 0, 7⟩ : Txn)
      ∉ get_transactions adminUser (create_tag alice "food" 7 dbAcct).2 :=
  placeholder_never_in_get_transactions.1 adminUser (create_tag alice "food" 7 dbAcct).2
    ⟨1, "Tag_1_placeholder", 0, 0, 7⟩ 1 rfl

/-! ### C10: join multiplicity of the non-privileged listing -/

/-- Summing a `flatMap` is summing the per-element sums. -/
theorem sum_flatMap {α : Type} {M : Type} [AddMonoid M] (l : List α) (f : α → List M) :
    (l.flatMap f).sum = (l.map (fun x => (f x).sum)).sum := by
  induction l with
  | nil => simp
  | cons a rest ih => simp [ih]

/-- A `flatMap` whose inner lists are constant copies of `x` is a
`replicate` of the total inner length. -/
theorem flatMap_map_const_replicate {α β : Type} {γ : Type} (l : List α)
    (g : α → List β) (x : γ) :
    (l.flatMap (fun a => (g a).map (fun _ => x)))
      = List.replicate ((l.map (fun a => (g a).length)).sum) x := by
  induction l with
  | nil => simp
  | cons a rest ih =>
    rw [List.flatMap_cons, ih, List.map_cons, List.sum_cons, List.map_const' (g a) x,
      ← List.replicate_add]

/-- Summing `if p b then m b else 0` over a list where the branch is
selected by equality with a fixed element. -/
theorem sum_map_ite_count {α : Type} [DecidableEq α] (l : List α) (t : α)
    (m : α → Nat) :
    (l.map (fun x => if x == t then m x else 0)).sum = l.count t * m t := by
  induction l with
  | nil => simp
  | cons a rest ih =>
    rw [List.map_cons, List.sum_cons, ih, List.count_cons]
    by_cases ha : a = t
    · subst ha
      simp [Nat.add_mul, Nat.add_comm]
    · simp [ha]

/-- Summing an indicator over a list counts the filter. -/
theorem sum_map_indicator {α : Type} (l : List α) (p : α → Bool) :
    (l.map (fun b => if p b then 1 else 0)).sum = (l.filter p).length := by
  induction l with
  | nil => simp
  | cons a rest ih =>
    by_cases ha : p a = true
    · simp [ha, ih, List.filter_cons, Nat.add_comm]
    · simp [ha, ih, List.filter_cons]

/-- Over an account table with no duplicate primary keys, filtering by a
key (plus an owner condition) yields at most one row, and exactly one
when some row matches. -/
theorem account_filter_length (l : List Account)
    (hnd : (l.map (·.transaction_account_id)).Nodup) (aid uid : Nat) :
    (l.filter (fun a => a.transaction_account_id == aid && a.user_id == uid)).length
      = if l.any (fun a => a.transaction_account_id == aid && a.user_id == uid)
        then 1 else 0 := by
  induction l with
  | nil => simp
  | cons a rest ih =>
    simp only [List.map_cons, List.nodup_cons] at hnd
    obtain ⟨hnotin, hrest⟩ := hnd
    by_cases hcond : (a.transaction_account_id == aid && a.user_id == uid) = true
    · have hrestnil :
          rest.filter (fun a => a.transaction_account_id == aid && a.user_id == uid)
            = [] := by
        refine List.filter_eq_nil_iff.mpr ?_
        intro x hx hpx
        simp only [Bool.and_eq_true, beq_iff_eq] at hcond hpx
        exact hnotin (List.mem_map.mpr ⟨x, hx, by rw [hpx.1, hcond.1]⟩)
      simp [List.filter_cons, List.any_cons, hcond, hrestnil]
    · simp only [List.filter_cons, List.any_cons, hcond, Bool.false_or, if_neg hcond]
      exact ih hrest

/-- C10: for a non-privileged caller, `get_transactions` produces one
output row per `Breakdown ⋈ Account` join match, so a transaction
appearing once in the table occurs in the output as many times as it has
breakdowns on the caller's accounts. -/
theorem get_transactions_join_multiplicity (u : UserRow) (db : DB) (t : Txn)
    (hadm : is_admin u.email = false)
    (hph : likeMatch placeholderPattern t.transaction_name = false)
    (hcnt : db.transactions.count t = 1)
    (hnd : (db.accounts.map (·.transaction_account_id)).Nodup) :
    (get_transactions u db).count t
      = (db.breakdowns.filter (fun b =>
          b.transaction_id == t.transaction_id &&
          accountOwned db u.user_id b.transaction_account_id)).length := by
  unfold get_transactions
  rw [if_neg (by simp [hadm])]
  rw [List.count_flatMap]
  have hrep : ∀ t2 : Txn,
      ((db.breakdowns.filter (fun b => b.transaction_id == t2.transaction_id)).flatMap
        (fun b => (db.accounts.filter (fun a =>
            a.transaction_account_id == b.transaction_account_id &&
            a.user_id == u.user_id)).map (fun _ => t2)))
      = List.replicate
          (((db.breakdowns.filter (fun b => b.transaction_id == t2.transaction_id)).map
            (fun b => (db.accounts.filter (fun a =>
                a.transaction_account_id == b.transaction_account_id &&
                a.user_id == u.user_id)).length)).sum) t2 :=
    fun t2 => flatMap_map_const_replicate _ _ _
  simp only [Function.comp_def, hrep, List.count_replicate]
  rw [sum_map_ite_count]
  rw [List.count_filter (by simp [hph]), hcnt, one_mul]
  have hlen : ∀ b : Breakdown,
      (db.accounts.filter (fun a =>
          a.transaction_account_id == b.transaction_account_id &&
          a.user_id == u.user_id)).length
        = if accountOwned db u.user_id b.transaction_account_id then 1 else 0 :=
    fun b => account_filter_length db.accounts hnd _ _
  simp only [hlen]
  rw [sum_map_indicator, List.filter_filter]
  exact congrArg List.length (List.filter_congr (by
    intro b hb
    rw [Bool.and_comm]))

/-- Store where alice's transaction 1 has two breakdowns on her account. -/
def dbDup : DB :=
  { users := [alice]
    accounts := [⟨1, "A", 0, 1⟩]
    transactions := [⟨1, "t1", 10, 0, 100⟩]
    breakdowns := [⟨1, 1, 1, 1, 0⟩, ⟨2, 1, 1, 2, 0⟩]
    tags := []
    assignments := [] }

/-- Witness for `get_transactions_join_multiplicity`: one transaction,
two breakdowns on the caller's account, two output rows. -/
theorem get_transactions_join_multiplicity_witness :
    (get_transactions alice dbDup).count ⟨1, "t1", 10, 0, 100⟩
      = (dbDup.breakdowns.filter (fun b =>
          b.transaction_id == (⟨1, "t1", 10, 0, 100⟩ : Txn).transaction_id &&
          accountOwned dbDup alice.user_id b.transaction_account_id)).length :=
  get_transactions_join_multiplicity alice dbDup ⟨1, "t1", 10, 0, 100⟩ rfl rfl
    (by simp [dbDup]) (by simp [dbDup])

/-! ### C1: privileged callers and ownership checks -/

/-- The breakdown loop denies whenever some supplied breakdown's account
is not owned by the caller — for every caller, admin or not. -/
theorem processBreakdowns_none (db : DB) (uid txnId : Nat) :
    ∀ (bs : List BreakdownInput) (fid : Nat),
      (∃ b ∈ bs, accountOwned db uid b.transaction_account_id = false) →
      processBreakdowns db uid txnId fid bs = none := by
  intro bs
  induction bs with
  | nil =>
    intro fid h
    obtain ⟨b, hb, _⟩ := h
    simp at hb
  | cons b rest ih =>
    intro fid h
    unfold processBreakdowns
    by_cases hb : accountOwned db uid b.transaction_account_id = true
    · rw [if_pos hb]
      obtain ⟨b2, hb2, hfalse⟩ := h
      rcases List.mem_cons.mp hb2 with rfl | hmem
      · rw [hb] at hfalse; cases hfalse
      · rw [ih (fid + 1) ⟨b2, hmem, hfalse⟩]
    · rw [if_neg hb]

/-- C1 (amended): a privileged caller bypasses only the target-account
check of `create_transaction` (and the admin-branched reads); the
per-breakdown account check of `create_transaction` and the account
filter of `get_transaction_breakdowns` apply caller ownership to every
caller, privileged included. -/
theorem privileged_scope_amended :
    (∀ (u : UserRow) (req : TransactionCreateRequest) (now : Nat) (db : DB),
       (∃ b ∈ req.breakdowns.getD [],
          accountOwned db u.user_id b.transaction_account_id = false) →
       (is_admin u.email = true ∨
        accountOwned db u.user_id req.target_account_id = true) →
       (create_transaction u req now db).1 = .error .AccessDenied) ∧
    (∀ (u : UserRow) (tid : Nat) (db : DB) (bs : List Breakdown),
       get_transaction_breakdowns u tid db = .ok bs →
       ∀ b ∈ bs, b.transaction_id = tid ∧
         accountOwned db u.user_id b.transaction_account_id = true) ∧
    (∀ (u : UserRow) (req : TransactionCreateRequest) (now : Nat) (db : DB),
       is_admin u.email = true → req.breakdowns = none →
       ∃ t, (create_transaction u req now db).1 = .ok t) := by
  refine ⟨?_, ?_, ?_⟩
  · intro u req now db hex hgate
    unfold create_transaction
    rw [if_neg (by rcases hgate with h | h <;> simp [h])]
    rw [processBreakdowns_none (dbAfterTxnCommit req now db) u.user_id
      (initialTxn req now db).transaction_id (req.breakdowns.getD [])
      (nextId ((dbAfterTxnCommit req now db).breakdowns.map (·.transaction_breakdown_id)))
      hex]
  · intro u tid db bs hok b hb
    unfold get_transaction_breakdowns at hok
    split at hok
    · simp at hok
    · simp only [Except.ok.injEq] at hok
      subst hok
      obtain ⟨hmem, hcond⟩ := List.mem_filter.mp hb
      simp only [Bool.and_eq_true, beq_iff_eq] at hcond
      exact ⟨hcond.1, hcond.2⟩
  · intro u req now db hadm hnone
    unfold create_transaction
    rw [if_neg (by simp [hadm])]
    simp only [hnone, Option.getD_none]
    exact ⟨_, rfl⟩

/-- A second regular user, owner of the account the admin touches. -/
def bob : UserRow := ⟨2, "bob", "b@x.com"⟩

/-- Store where bob owns account 10 carrying the only breakdown of
transaction 5. -/
def dbCx : DB :=
  { users := [adminUser, bob]
    accounts := [⟨10, "BobAcct", 0, 2⟩]
    transactions := [⟨5, "t5", 0, 0, 100⟩]
    breakdowns := [⟨100, 5, 10, 0, 5⟩]
    tags := []
    assignments := [] }

/-- C1 counterexample: a privileged caller is denied on a breakdown
whose account it does not own, and its `get_transaction_breakdowns`
misses the transaction's existing breakdowns instead of returning all
of them. -/
theorem privileged_scope_counterexample :
    is_admin adminUser.email = true ∧
    (create_transaction adminUser ⟨"x", 1, none, none, 10, some [⟨10, 1, 0⟩]⟩ 0 dbCx).1
        = .error .AccessDenied ∧
    get_transaction_breakdowns adminUser 5 dbCx = .error .NotFound ∧
    dbCx.breakdowns.filter (fun b => b.transaction_id == 5) ≠ [] := by
  exact ⟨rfl, rfl, rfl, by simp [dbCx]⟩

/-- Witness for `privileged_scope_amended` at a concrete privileged call. -/
theorem privileged_scope_amended_witness :
    (create_transaction adminUser ⟨"y", 1, none, none, 10, some [⟨10, 1, 0⟩]⟩ 3 dbCx).1
      = .error .AccessDenied :=
  privileged_scope_amended.1 adminUser ⟨"y", 1, none, none, 10, some [⟨10, 1, 0⟩]⟩ 3 dbCx
    ⟨⟨10, 1, 0⟩, by simp, rfl⟩ (Or.inl rfl)

/-! ### C5: partial failure of the multi-step writes -/

/-- Store with two users and no accounts at all. -/
def dbNoAcct : DB :=
  { users := [alice, adminUser]
    accounts := []
    transactions := []
    breakdowns := []
    tags := []
    assignments := [] }

/-- C5 counterexample: `create_tag` fails with `NoAccountAvailable` for
a caller without accounts, yet the Tag row committed by its first step
remains and is returned by `get_tags` to a privileged caller. -/
theorem partial_failure_counterexample :
    (create_tag alice "food" 7 dbNoAcct).1 = .error .NoAccountAvailable ∧
    (⟨1, "food"⟩ : TagRow) ∈ get_tags adminUser (create_tag alice "food" 7 dbNoAcct).2 := by
  refine ⟨rfl, ?_⟩
  show (⟨1, "food"⟩ : TagRow) ∈ ([⟨1, "food"⟩] : List TagRow)
  exact List.mem_singleton.mpr rfl

/-- C5 (amended): a failing `create_tag` keeps exactly its committed Tag
row, which privileged `get_tags` then returns; a `create_transaction`
that passes the target gate but fails on a breakdown keeps exactly its
committed Transaction row (net 0), which privileged `get_transactions`
then returns when its name is not placeholder-shaped.  Only the
uncommitted pending rows of the failing call are absent. -/
theorem partial_failure_amended :
    (∀ (u : UserRow) (name : String) (now : Nat) (db : DB) (e : Err),
       (create_tag u name now db).1 = .error e →
       (create_tag u name now db).2 = dbAfterTagCommit name db ∧
       ∀ adm : UserRow, is_admin adm.email = true →
         newTag name db ∈ get_tags adm (create_tag u name now db).2) ∧
    (∀ (u : UserRow) (req : TransactionCreateRequest) (now : Nat) (db : DB) (e : Err),
       (is_admin u.email = true ∨
        accountOwned db u.user_id req.target_account_id = true) →
       (create_transaction u req now db).1 = .error e →
       (create_transaction u req now db).2 = dbAfterTxnCommit req now db ∧
       (dbAfterTxnCommit req now db).transactions
         = db.transactions ++ [initialTxn req now db] ∧
       (dbAfterTxnCommit req now db).breakdowns = db.breakdowns ∧
       (dbAfterTxnCommit req now db).assignments = db.assignments ∧
       (∀ adm : UserRow, is_admin adm.email = true →
          likeMatch placeholderPattern req.transaction_name = false →
          initialTxn req now db ∈ get_transactions adm (create_transaction u req now db).2)) := by
  constructor
  · intro u name now db e herr
    unfold create_tag at herr ⊢
    cases hfind : db.accounts.find? (fun a => a.user_id == u.user_id) with
    | none =>
      refine ⟨rfl, ?_⟩
      intro adm hadm
      unfold get_tags
      rw [if_pos (by simp [hadm])]
      simp [dbAfterTagCommit]
    | some acct =>
      rw [hfind] at herr
      simp at herr
  · intro u req now db e hgate herr
    unfold create_transaction at herr ⊢
    rw [if_neg (by rcases hgate with h | h <;> simp [h])] at herr ⊢
    cases hp : processBreakdowns (dbAfterTxnCommit req now db) u.user_id
        (initialTxn req now db).transaction_id
        (nextId ((dbAfterTxnCommit req now db).breakdowns.map (·.transaction_breakdown_id)))
        (req.breakdowns.getD []) with
    | some pr =>
      obtain ⟨rows, net⟩ := pr
      rw [hp] at herr
      simp at herr
    | none =>
      refine ⟨rfl, rfl, rfl, rfl, ?_⟩
      intro adm hadm hph
      unfold get_transactions
      rw [if_pos (by simp [hadm])]
      refine List.mem_filter.mpr ⟨?_, ?_⟩
      · show initialTxn req now db ∈ (dbAfterTxnCommit req now db).transactions
        simp [dbAfterTxnCommit]
      · show (!likeMatch placeholderPattern (initialTxn req now db).transaction_name) = true
        simp [initialTxn, hph]

/-- Witness for `partial_failure_amended` at a concrete failing
`create_tag` call. -/
theorem partial_failure_amended_witness :
    (create_tag alice "food" 7 dbNoAcct).2 = dbAfterTagCommit "food" dbNoAcct ∧
    ∀ adm : UserRow, is_admin adm.email = true →
      newTag "food" dbNoAcct ∈ get_tags adm (create_tag alice "food" 7 dbNoAcct).2 :=
  partial_failure_amended.1 alice "food" 7 dbNoAcct .NoAccountAvailable rfl

/-! ### C4: total spending -/

/-- The claim's reading of `totalSpending` (spec refinement target):
each in-scope transaction with positive amount counted exactly once. -/
def specTotalSpendingOnce (user : UserRow) (db : DB) : ℚ :=
  ((db.transactions.filter (fun t =>
      decide (t.amount > 0) &&
      (is_admin user.email ||
       db.breakdowns.any (fun b =>
         b.transaction_id == t.transaction_id &&
         accountOwned db user.user_id b.transaction_account_id)))).map (·.amount)).sum

/-- Per-transaction number of `Breakdown ⋈ Account` join matches on the
caller's accounts. -/
def ownedJoinCount (db : DB) (uid : Nat) (t : Txn) : Nat :=
  ((db.breakdowns.filter (fun b => b.transaction_id == t.transaction_id)).map
    (fun b => (db.accounts.filter (fun a =>
        a.transaction_account_id == b.transaction_account_id &&
        a.user_id == uid)).length)).sum

/-- Sum of the positive amount of `m` copies of one transaction. -/
theorem sum_filter_map_replicate (m : Nat) (t : Txn) :
    (((List.replicate m t).filter (fun t2 => decide (t2.amount > 0))).map
        (·.amount)).sum
      = if t.amount > 0 then (m : ℚ) * t.amount else 0 := by
  rw [List.filter_replicate]
  by_cases hp : decide (t.amount > 0) = true
  · rw [if_pos hp, List.map_replicate, List.sum_replicate, nsmul_eq_mul,
      if_pos (of_decide_eq_true hp)]
  · rw [if_neg hp, if_neg (by simpa using hp)]
    simp

/-- C4 (amended): `get_total_spending` sums each positive-amount
transaction once for a privileged caller, and once per
`Breakdown ⋈ Account` join match on the caller's accounts otherwise. -/
theorem total_spending_amended (u : UserRow) (db : DB) :
    get_total_spending u db =
      if is_admin u.email then
        ((db.transactions.filter (fun t => decide (t.amount > 0))).map (·.amount)).sum
      else
        (db.transactions.map (fun t =>
          if t.amount > 0 then (ownedJoinCount db u.user_id t : ℚ) * t.amount
          else 0)).sum := by
  unfold get_total_spending
  by_cases hadm : is_admin u.email = true
  · rw [if_pos hadm, if_pos hadm]
  · rw [if_neg hadm, if_neg hadm]
    rw [List.filter_flatMap, List.map_flatMap, sum_flatMap]
    refine congrArg List.sum (List.map_congr_left ?_)
    intro t ht
    rw [flatMap_map_const_replicate, sum_filter_map_replicate]
    rfl

/-- C4 counterexample: alice's only transaction has amount 10 and two
breakdowns on her account; the report returns 20, not the 10 that
counting each transaction once would give. -/
theorem total_spending_counterexample :
    get_total_spending alice dbDup = 20 ∧
    specTotalSpendingOnce alice dbDup = 10 ∧
    ¬ ((20 : ℚ) = 10) := by
  refine ⟨?_, ?_, by norm_num⟩
  · norm_num [get_total_spending, show is_admin "a@x.com" = false from rfl,
      alice, dbDup, List.filter_cons, accountOwned, List.flatMap_cons]
  · norm_num [specTotalSpendingOnce, show is_admin "a@x.com" = false from rfl,
      alice, dbDup, List.filter_cons, accountOwned]

/-! ### C3: exceeding-transactions report -/

theorem charListLt_irrefl : ∀ x : List Char, charListLt x x = false := by
  intro x
  induction x with
  | nil => rfl
  | cons a as ih => simp [charListLt, ih]

theorem charListLt_trans :
    ∀ x y z : List Char, charListLt x y = true → charListLt y z = true →
      charListLt x z = true := by
  intro x
  induction x with
  | nil =>
    intro y z hxy hyz
    cases z with
    | cons c cs => rfl
    | nil =>
      cases y with
      | nil => simp [charListLt] at hxy
      | cons b bs => simp [charListLt] at hyz
  | cons a as ih =>
    intro y z hxy hyz
    cases y with
    | nil => simp [charListLt] at hxy
    | cons b bs =>
      cases z with
      | nil => simp [charListLt] at hyz
      | cons c cs =>
        simp only [charListLt] at hxy hyz ⊢
        by_cases hab : a = b
        · subst hab
          rw [if_pos rfl] at hxy
          by_cases hac : a = c
          · subst hac
            rw [if_pos rfl] at hyz ⊢
            exact ih bs cs hxy hyz
          · rw [if_neg hac] at hyz ⊢
            exact hyz
        · rw [if_neg hab] at hxy
          by_cases hbc : b = c
          · subst hbc
            rw [if_neg hab]
            exact hxy
          · rw [if_neg hbc] at hyz
            have hac : a < c :=
              lt_trans (of_decide_eq_true hxy) (of_decide_eq_true hyz)
            rw [if_neg (ne_of_lt hac)]
            exact decide_eq_true hac

theorem charListLt_total_of_ne :
    ∀ x y : List Char, x ≠ y → (charListLt x y || charListLt y x) = true := by
  intro x
  induction x with
  | nil =>
    intro y hne
    cases y with
    | nil => exact absurd rfl hne
    | cons b bs => rfl
  | cons a as ih =>
    intro y hne
    cases y with
    | nil => rfl
    | cons b bs =>
      by_cases hab : a = b
      · subst hab
        have hne2 : as ≠ bs := fun h => hne (by rw [h])
        have h2 := ih bs hne2
        simpa [charListLt] using h2
      · simp only [charListLt, if_neg hab, if_neg (Ne.symm hab), Bool.or_eq_true,
          decide_eq_true_eq]
        exact lt_or_gt_of_ne hab

theorem exceedLE_trans (r1 r2 r3 : ExceedRow) (h12 : exceedLE r1 r2 = true)
    (h23 : exceedLE r2 r3 = true) : exceedLE r1 r3 = true := by
  unfold exceedLE at h12 h23 ⊢
  by_cases e12 : r1.user_id = r2.user_id <;> by_cases e23 : r2.user_id = r3.user_id
  · rw [if_pos e12] at h12
    rw [if_pos e23] at h23
    rw [if_pos (e12.trans e23)]
    by_cases n12 : r1.account_name = r2.account_name
    · rw [if_pos n12] at h12
      by_cases n23 : r2.account_name = r3.account_name
      · rw [if_pos n23] at h23
        rw [if_pos (n12.trans n23)]
        exact decide_eq_true
          (le_trans (of_decide_eq_true h23) (of_decide_eq_true h12))
      · rw [if_neg n23] at h23
        rw [if_neg (fun h => n23 (n12.symm.trans h)), n12]
        exact h23
    · rw [if_neg n12] at h12
      by_cases n23 : r2.account_name = r3.account_name
      · rw [if_pos n23] at h23
        rw [if_neg (fun h => n12 (h.trans n23.symm)), ← n23]
        exact h12
      · rw [if_neg n23] at h23
        have hlt := charListLt_trans _ _ _ h12 h23
        have hne : r1.account_name ≠ r3.account_name := fun h => by
          rw [h, charListLt_irrefl] at hlt
          exact Bool.false_ne_true hlt
        rw [if_neg hne]
        exact hlt
  · rw [if_neg e23] at h23
    rw [if_neg (fun h => e23 (e12.symm.trans h)), e12]
    exact h23
  · rw [if_neg e12] at h12
    rw [if_neg (fun h => e12 (h.trans e23.symm)), ← e23]
    exact h12
  · rw [if_neg e12] at h12
    rw [if_neg e23] at h23
    have l12 := of_decide_eq_true h12
    have l23 := of_decide_eq_true h23
    rw [if_neg (by omega)]
    exact decide_eq_true (by omega)

theorem exceedLE_total (r1 r2 : ExceedRow) :
    (exceedLE r1 r2 || exceedLE r2 r1) = true := by
  unfold exceedLE
  by_cases e : r1.user_id = r2.user_id
  · rw [if_pos e, if_pos e.symm]
    by_cases n : r1.account_name = r2.account_name
    · rw [if_pos n, if_pos n.symm]
      simp only [Bool.or_eq_true, decide_eq_true_eq]
      omega
    · rw [if_neg n, if_neg (Ne.symm n)]
      exact charListLt_total_of_ne _ _ (fun h => n (String.ext h))
  · rw [if_neg e, if_neg (Ne.symm e)]
    simp only [Bool.or_eq_true, decide_eq_true_eq]
    omega

/-- C3 (amended): `get_exceeding_transactions` outputs exactly the join
rows whose spent amount is positive and exceeds the window running
balance that includes the row itself and its date peers (SQL RANGE
frame), subject to the optional account-name filter and non-admin user
scoping; the output is pairwise ordered by user id, then account name,
then transaction date descending. -/
theorem exceeding_transactions_amended (u : UserRow) (nameF : Option String) (db : DB) :
    (∀ r : ExceedRow, r ∈ get_exceeding_transactions u nameF db ↔
       (r ∈ exceedJoinRows db ∧ r.transaction_amount > r.calculated_balance ∧
        r.transaction_amount > 0 ∧
        (∀ n, nameF = some n → r.account_name = n) ∧
        (is_admin u.email = true ∨ r.user_id = u.user_id))) ∧
    List.Pairwise (fun r1 r2 => exceedLE r1 r2 = true)
      (get_exceeding_transactions u nameF db) := by
  constructor
  · intro r
    unfold get_exceeding_transactions
    rw [List.mem_mergeSort, List.mem_filter]
    constructor
    · intro h
      obtain ⟨hmem, hpred⟩ := h
      simp only [Bool.and_eq_true, decide_eq_true_eq, Bool.or_eq_true,
        beq_iff_eq] at hpred
      cases nameF with
      | none =>
        obtain ⟨⟨⟨hgt, hpos⟩, -⟩, hscope⟩ := hpred
        exact ⟨hmem, hgt, hpos, fun n hn => Option.noConfusion hn, hscope⟩
      | some nm =>
        obtain ⟨⟨⟨hgt, hpos⟩, hname⟩, hscope⟩ := hpred
        refine ⟨hmem, hgt, hpos, fun n hn => ?_, hscope⟩
        cases hn
        simpa using hname
    · intro h
      obtain ⟨hmem, hgt, hpos, hname, hscope⟩ := h
      refine ⟨hmem, ?_⟩
      simp only [Bool.and_eq_true, decide_eq_true_eq, Bool.or_eq_true, beq_iff_eq]
      cases nameF with
      | none => exact ⟨⟨⟨hgt, hpos⟩, rfl⟩, hscope⟩
      | some nm => exact ⟨⟨⟨hgt, hpos⟩, by simpa using hname nm rfl⟩, hscope⟩
  · unfold get_exceeding_transactions
    exact List.sorted_mergeSort (fun a b c => exceedLE_trans a b c)
      (fun a b => exceedLE_total a b) _

/-- The spec's reading of the running balance "at that point": the
cumulative `earned - spent` of the account's rows at strictly earlier
transaction dates (spec refinement target, contrasted with the
inclusive `calcBalance` the code computes). -/
def specRunningBalancePrior (db : DB) (acctId d : Nat) : ℚ :=
  (((windowRows db).filter (fun w =>
      w.b.transaction_account_id == acctId && decide (w.t.date < d))).map
    (fun w => w.b.earned_amount - w.b.spent_amount)).sum

/-- Account A of alice with breakdowns earning 100, earning 50,
spending 100, then spending 40, at dates 100 < 200 < 300 < 400: the
prior running balances are [100, 150, 50]. -/
def dbBal : DB :=
  { users := [alice]
    accounts := [⟨1, "A", 0, 1⟩]
    transactions := [⟨1, "t1", 0, 0, 100⟩, ⟨2, "t2", 0, 0, 200⟩,
                     ⟨3, "t3", 0, 0, 300⟩, ⟨4, "t4", 0, 0, 400⟩]
    breakdowns := [⟨1, 1, 1, 0, 100⟩, ⟨2, 2, 1, 0, 50⟩, ⟨3, 3, 1, 100, 0⟩,
                   ⟨4, 4, 1, 40, 0⟩]
    tags := []
    assignments := [] }

/-- C3 counterexample: the account's running balance has reached 50 and
the next transaction spends 40; the claim says it is not flagged
(40 ≤ 50), but the report outputs it, because the window balance
includes the row itself (50 - 40 = 10 and 40 > 10). -/
theorem exceeding_transactions_counterexample :
    specRunningBalancePrior dbBal 1 400 = 50 ∧
    ¬ ((40 : ℚ) > 50) ∧
    (⟨1, "alice", "A", 4, "t4", 40, 400, 10⟩ : ExceedRow)
      ∈ get_exceeding_transactions alice none dbBal := by
  refine ⟨?_, by norm_num, ?_⟩
  · norm_num [specRunningBalancePrior, windowRows, dbBal, alice, List.filter_cons,
      List.flatMap_cons]
  · unfold get_exceeding_transactions
    rw [List.mem_mergeSort]
    rw [List.mem_filter]
    constructor
    · norm_num [exceedJoinRows, windowRows, calcBalance, dbBal, alice,
        List.filter_cons, List.flatMap_cons]
    · norm_num [show is_admin "a@x.com" = false from rfl, alice]

end FEiN
